import Mathlib

/-!
Verification of the nroff writer core of xml2rfc
(`cli/xml2rfc/writers/nroff.py`, class `NroffRfcWriter`).

The Python source is shallowly embedded below: the buffer is a
`List String`, the break-hint ledger (a Python dict keyed by buffer
offset) is a function `Nat → Option (Int × String)`, machine integers
are `Nat`/`Int`, and fallible code (Python raising `IndexError`, or a
helper returning `None`) returns `Option`.
-/

namespace Nroff

/-- The apostrophe character (code point 39), one of the two nroff
control-sentinel characters. -/
def apos : Char := Char.ofNat 39

/-- `nroff_linestart_meta = ["'", ".", ]` (nroff.py line 21): the two
characters that start an nroff control command. -/
def nroff_linestart_meta : List Char := [apos, '.']

/-- `nroff_escape_linestart` (nroff.py lines 23-27).  Python tests
`line.startswith("'")` / `line.startswith(".")`, i.e. the first
character; with neither, the function falls through and returns `None`,
modelled here by `none`. -/
def nroff_escape_linestart (line : String) : Option String :=
  match line.data with
  | c :: _ =>
    if c = apos then some ("\\" ++ line)
    else if c = '.' then some ("\\&" ++ line)
    else none
  | [] => none

/-- Python `str.lstrip()`: drop leading whitespace.  (Lean's
`Char.isWhitespace` covers space, tab, carriage return and newline,
matching the ASCII whitespace Python strips in this code.) -/
def py_lstrip (s : String) : String :=
  String.mk (s.data.dropWhile Char.isWhitespace)

/-- Python `str.rstrip()` with no argument: drop trailing whitespace. -/
def py_rstrip (s : String) : String :=
  String.mk ((s.data.reverse.dropWhile Char.isWhitespace).reverse)

/-- Python `str.strip()`: drop whitespace at both ends. -/
def py_strip (s : String) : String :=
  String.mk (((s.data.dropWhile Char.isWhitespace).reverse.dropWhile
    Char.isWhitespace).reverse)

/-- The page-break decision of `post_rendering` (nroff.py lines 270-279):
`available = page_maxlen - page_len` is passed in, `needed`/`text_type`
come from the ledger entry, and `blank` is `line.strip() == ""`.  Both
`available` and `needed` are decremented when the line is blank, then the
three-way disjunction of the source is evaluated. -/
def break_hint_decision (autobreaks : Bool) (needed : Int) (text_type : String)
    (available : Int) (blank : Bool) : Bool :=
  let available := if blank then available - 1 else available
  let needed := if blank then needed - 1 else needed
  (text_type == "break")
    || ((text_type == "raw") && decide (needed > available))
    || (autobreaks && decide (needed > available)
        && (decide (needed - available < 2) || decide (available < 2)))

/-- The loop of `post_rendering` (nroff.py lines 265-286), with the
enumeration counter `line_num` and the page cursor `page_len` made
explicit.  At each buffer line: a ledger lookup may force a `.bp`
(resetting the cursor), then the hard-capacity test `page_len + 1 > 55`
may force a `.bp`, then the line itself is appended and the cursor
incremented. -/
def paginate (hints : Nat → Option (Int × String)) (autobreaks : Bool) :
    Nat → Nat → List String → List String
  | _, _, [] => []
  | line_num, page_len, line :: rest =>
    let hb : Bool :=
      match hints line_num with
      | some (needed, text_type) =>
        break_hint_decision autobreaks needed text_type
          (55 - (page_len : Int)) (py_strip line == "")
      | none => false
    let k1 := if hb then 0 else page_len
    let cb : Bool := decide (k1 + 1 > 55)
    let k2 := if cb then 0 else k1
    (if hb then [".bp"] else []) ++ (if cb then [".bp"] else [])
      ++ line :: paginate hints autobreaks (line_num + 1) (k2 + 1) rest

/-- `post_rendering` (nroff.py lines 262-286): run the pagination loop
over the whole buffer starting with `page_len = 0` and an empty output. -/
def post_rendering (hints : Nat → Option (Int × String)) (autobreaks : Bool)
    (buf : List String) : List String :=
  paginate hints autobreaks 0 0 buf

/-- `runBounded cap k out` holds when, scanning `out` with a current-run
counter starting at `k`, every maximal run of consecutive non-`.bp`
lines stays within `cap` lines; a `.bp` line resets the counter and is
not itself counted. -/
def runBounded (cap : Nat) : Nat → List String → Prop
  | _, [] => True
  | k, l :: ls =>
    if l = ".bp" then runBounded cap 0 ls
    else (k + 1 ≤ cap ∧ runBounded cap (k + 1) ls)

/-- `BpInserted out buf` holds when `out` is exactly `buf` with zero or
more `.bp` break-command lines inserted: every buffer line occurs in
`out` exactly once, in its original relative order, and every other line
of `out` is `.bp`. -/
inductive BpInserted : List String → List String → Prop
  | nil : BpInserted [] []
  | keep (l : String) {out buf : List String} :
      BpInserted out buf → BpInserted (l :: out) (l :: buf)
  | brk {out buf : List String} :
      BpInserted out buf → BpInserted (".bp" :: out) buf

/-- Modelled from the spec (§4.7): the heuristic FLOW-break condition —
"Break if automatic-break mode is enabled and `linesNeeded > available`
and either `(linesNeeded − available) < 2` or `available < 2`", with the
adjustment "if the current line is blank, decrement both `available` and
`linesNeeded` by 1". -/
def heuristic_break_spec (autobreaks : Bool) (needed available : Int)
    (blank : Bool) : Bool :=
  let a := if blank then available - 1 else available
  let n := if blank then needed - 1 else needed
  autobreaks && decide (n > a) && (decide (n - a < 2) || decide (a < 2))

/-- A concrete ledger with a single FLOW hint (10 lines needed) at offset 0. -/
def c3_hints : Nat → Option (Int × String) :=
  fun j => if j = 0 then some (10, "txt") else none

/-- A concrete ledger with a single RAW hint (2 lines needed) at offset 0. -/
def c4_hints : Nat → Option (Int × String) :=
  fun j => if j = 0 then some (2, "raw") else none

/-- The mutable writer state the rendering-phase claims concern:
`self.buf`, `self.curr_indent` (nroff.py line 51), `self.break_hints`
and `self.edit_counter` (both from the base writer). -/
structure RenderState where
  buf : List String
  curr_indent : Nat
  break_hints : Nat → Option (Int × String)
  edit_counter : Nat

/-- `NroffRfcWriter._indent` (nroff.py lines 61-65): writes an `.in`
command (via `write_nroff`, a plain buffer append) only when `amount`
differs from the last-emitted level, and then records the new level. -/
def _indent (amount : Nat) (st : RenderState) : RenderState :=
  if amount ≠ st.curr_indent then
    { st with buf := st.buf ++ [".in " ++ toString amount], curr_indent := amount }
  else st

/-- `NroffRfcWriter.write_line` (nroff.py lines 76-80).  `string[0]`
raises `IndexError` on the empty string, modelled by `none`; when the
first character is a control sentinel the line is replaced by its
escaped form before being appended.  (In that branch
`nroff_escape_linestart` always returns a value, so the `getD` default
is never consulted.) -/
def write_line (buf : List String) (string : String) : Option (List String) :=
  match string.data with
  | [] => none
  | c :: _ =>
    if c ∈ nroff_linestart_meta then
      some (buf ++ [(nroff_escape_linestart string).getD string])
    else
      some (buf ++ [string])

/-- One step of the escaping loop of `write_text` (nroff.py lines
121-123): `par[i][0]` raises `IndexError` on an empty wrapped line
(`none`); a line starting with a control sentinel is replaced by its
escaped form, any other line is kept unchanged. -/
def escape_line (l : String) : Option String :=
  match l.data with
  | [] => none
  | c :: _ => if c ∈ nroff_linestart_meta then nroff_escape_linestart l else some l

/-- The escaping loop of `write_text` over the whole wrapped paragraph. -/
def escape_par : List String → Option (List String)
  | [] => some []
  | l :: rest =>
    match escape_line l, escape_par rest with
    | some l2, some rest2 => some (l2 :: rest2)
    | _, _ => none

/-- Modelled from the spec: `_lb` lives in the raw-text base writer,
which is not under src/.  Per spec §4.3 step 1, a requested leading
blank line "either render[s] a plain blank line, or — if edit-mark mode
is active — render[s] a self-incrementing numeric marker line (`<N>`)":
one line is appended to the buffer. -/
def lb_lines (text : String) : List String := [text]

/-- Python `bullet and len(bullet.strip()) > 0` (nroff.py lines 112 and
133). -/
def bullet_on (bullet : String) : Bool :=
  (bullet != "") && (py_strip bullet != "")

/-- The state effects of `write_text` (nroff.py lines 83-145), in source
order, once the escaped paragraph `par` is given: record
`begin = len(self.buf)`; optional leading blank line or edit mark
(lines 99-105); for non-empty text, the `.ce` centering command or the
`_indent` call with
`full_indent = sub_indent and indent + sub_indent or indent + len(bullet)`
(lines 124-131; over non-negative integers the Python `and`/`or` idiom
is `if sub_indent ≠ 0 then indent + sub_indent else indent + len bullet`);
the `.ti` bullet command, with the bare bullet becoming the whole
paragraph when the text is empty (lines 133-138); `buf.extend(par)`
(line 141); finally `break_hints[begin] = (end - begin, "txt")`
(lines 144-145), overwriting any previous entry at `begin`. -/
def write_text_core (string : String) (indent sub_indent : Nat)
    (bullet align : String) (leading_blankline edit editing : Bool)
    (par : List String) (st : RenderState) : RenderState :=
  let buf0 :=
    if leading_blankline then
      st.buf ++ lb_lines (if edit && editing then
        "<" ++ toString (st.edit_counter + 1) ++ ">" else "")
    else st.buf
  let ec :=
    if leading_blankline && edit && editing then st.edit_counter + 1
    else st.edit_counter
  let full_indent :=
    if sub_indent ≠ 0 then indent + sub_indent else indent + bullet.length
  let buf1 :=
    if string ≠ "" then
      if align = "center" then buf0 ++ [".ce " ++ toString par.length]
      else if full_indent ≠ st.curr_indent then
        buf0 ++ [".in " ++ toString full_indent]
      else buf0
    else buf0
  let curr1 :=
    if string ≠ "" ∧ align ≠ "center" then full_indent else st.curr_indent
  let buf2 := if bullet_on bullet then buf1 ++ [".ti " ++ toString indent] else buf1
  let par1 := if bullet_on bullet ∧ string = "" then par ++ [bullet] else par
  let buf3 := buf2 ++ par1
  { buf := buf3
    curr_indent := curr1
    break_hints := fun k =>
      if k = st.buf.length then
        some (((buf3.length - st.buf.length : Nat) : Int), "txt")
      else st.break_hints k
    edit_counter := ec }

/-- Lines 109-116 of `write_text`: the string handed to the wrapper —
left-stripped when `strip` is set, then with the bullet prepended when
the bullet is non-whitespace. -/
def wrap_input (strip : Bool) (bullet string : String) : String :=
  let s1 := if strip then py_lstrip string else string
  if bullet_on bullet then bullet ++ s1 else s1

/-- `write_text` (nroff.py lines 83-145) in its default `buf=self.buf`
form.  The external wrapping collaborator `wrap` receives the composed
string, the `fix_doublespace` flag (false exactly when a bullet is
prepended, lines 112-116) and the `fix_sentence_endings` flag, and
returns the display lines; the escape loop then fails (`none`) on an
empty wrapped line, otherwise `write_text_core` applies the state
effects. -/
def write_text (wrap : String → Bool → Bool → List String) (editing : Bool)
    (string : String) (indent sub_indent : Nat) (bullet align : String)
    (leading_blankline strip edit fix_sentence_endings : Bool)
    (st : RenderState) : Option RenderState :=
  if string ≠ "" then
    match escape_par (wrap (wrap_input strip bullet string)
        (!(bullet_on bullet)) fix_sentence_endings) with
    | none => none
    | some par =>
      some (write_text_core string indent sub_indent bullet align
        leading_blankline edit editing par st)
  else
    some (write_text_core string indent sub_indent bullet align
      leading_blankline edit editing [] st)

/-- `_post_write_toc` (nroff.py lines 154-163): wraps the pre-built TOC
entry lines (`self.toc`, produced by the base class) in a no-fill block
under indent 3; `tmpbuf.extend(self.toc)` copies the TOC lines verbatim,
with no escaping and no consultation of `curr_indent`. -/
def _post_write_toc (toc : List String) (tmpbuf : List String) : List String :=
  tmpbuf ++ [".ti 0", "Table of Contents", "", ".in 3", ".nf"] ++ toc ++ [".fi"]

/-- Iterate `_indent` over a list of requested levels. -/
def indent_run : List Nat → RenderState → RenderState
  | [], st => st
  | a :: rest, st => indent_run rest (_indent a st)

/-- The levels at which a run of `_indent` calls actually emits an `.in`
command, given the incoming `curr_indent`. -/
def emitted_levels : List Nat → Nat → List Nat
  | [], _ => []
  | a :: rest, curr =>
    if a ≠ curr then a :: emitted_levels rest a else emitted_levels rest curr

/-- The item record returned by the external `_getItemByAnchor`
collaborator, with the three fields `_expand_xref` reads. -/
structure XrefItem where
  counter : String
  title : String
  autoName : String

/-- An `xref` element as `_expand_xref` sees it: the `target` and
`format` attributes (absent attributes fall back to defaults via
`attrib.get`), and the element text.  lxml's `xref.text` is `None` or a
string, and both `None` and `""` are falsy in `if xref.text:`, so they
are collapsed to `""` here. -/
structure XrefElem where
  target : Option String
  format : Option String
  text : String

/-- Python `s.startswith(c)` for a single-character pattern: test the
first character. -/
def starts_with_char (c : Char) (s : String) : Bool :=
  match s.data with
  | d :: _ => d == c
  | [] => false

/-- The `target_text` computation of `_expand_xref` (nroff.py lines
167-177): a missing item or format `none` gives the bracketed target;
otherwise `counter`, `title`, or (default, any other format) the item's
`autoName`. -/
def xref_target_text (getItem : String → Option XrefItem)
    (xref_format_default : String) (x : XrefElem) : String :=
  let target := x.target.getD ""
  let format := x.format.getD xref_format_default
  match getItem target with
  | none => "[" ++ target ++ "]"
  | some item =>
    if format = "none" then "[" ++ target ++ "]"
    else if format = "counter" then item.counter
    else if format = "title" then item.title
    else item.autoName

/-- `_expand_xref` (nroff.py lines 165-188).  With element text, an
unbracketed display text is parenthesized, and a bracketed one
containing `.` or `-` gets the `\%` no-break escape (Python's `"\%"` is
the two characters backslash, percent); the Python substring tests
`"." in target_text` / `"-" in target_text` are single-character
membership. -/
def _expand_xref (getItem : String → Option XrefItem)
    (xref_format_default : String) (x : XrefElem) : String :=
  let target_text := xref_target_text getItem xref_format_default x
  if x.text ≠ "" then
    let target_text :=
      if !(starts_with_char '[' target_text) then "(" ++ target_text ++ ")"
      else if '.' ∈ target_text.data ∨ '-' ∈ target_text.data then
        "\\%" ++ target_text
      else target_text
    py_rstrip x.text ++ " " ++ target_text
  else
    if '.' ∈ target_text.data ∨ '-' ∈ target_text.data then "\\%" ++ target_text
    else target_text


/-- A fresh writer state: empty buffer, indent level 0 (nroff.py line
51), empty ledger, edit counter 0. -/
def empty_state : RenderState :=
  { buf := [], curr_indent := 0, break_hints := fun _ => none, edit_counter := 0 }

/-- A wrapping collaborator whose text fits on one display line: it
returns the composed string unchanged as a single line. -/
def single_line_wrap : String → Bool → Bool → List String := fun s _ _ => [s]

/-- A wrapping collaborator that produces no display lines. -/
def no_lines_wrap : String → Bool → Bool → List String := fun _ _ _ => []

/-- The state produced by the concrete `write_text` call used to witness
the ledger properties. -/
def c7_state : RenderState :=
  write_text_core "hi" 3 0 "" "left" false false false ["hi"] empty_state

/-- The state produced by the concrete bulleted `write_text` call of the
effective-indent scenario. -/
def c8_state : RenderState :=
  write_text_core "body" 0 0 "1. " "left" false false false ["1. body"] empty_state

/-- A concrete anchor-resolution table for the cross-reference witness. -/
def c9_items : String → Option XrefItem :=
  fun a =>
    if a = "sec" then some { counter := "5", title := "Intro", autoName := "Section 5" }
    else none

-- ===== theorems =====

theorem runBounded_mono {cap : Nat} :
    ∀ (ls : List String) {j k : Nat}, j ≤ k → runBounded cap k ls → runBounded cap j ls := by
  intro ls
  induction ls with
  | nil => intro j k _ _; trivial
  | cons l t ih =>
    intro j k hjk h
    by_cases hl : l = ".bp"
    · simpa [runBounded, hl] using (by simpa [runBounded, hl] using h)
    · simp only [runBounded, hl, if_neg] at h ⊢
      exact ⟨Nat.le_trans (Nat.add_le_add_right hjk 1) h.1, ih (Nat.add_le_add_right hjk 1) h.2⟩

theorem paginate_runBounded (hints : Nat → Option (Int × String)) (ab : Bool) :
    ∀ (buf : List String) (n k : Nat), k ≤ 55 →
      runBounded 55 k (paginate hints ab n k buf) := by
  intro buf
  induction buf with
  | nil => intro n k _; trivial
  | cons l rest ih =>
    intro n k hk
    show runBounded 55 k
      (let hb : Bool :=
        match hints n with
        | some (needed, text_type) =>
          break_hint_decision ab needed text_type (55 - (k : Int)) (py_strip l == "")
        | none => false
      let k1 := if hb then 0 else k
      let cb : Bool := decide (k1 + 1 > 55)
      let k2 := if cb then 0 else k1
      (if hb then [".bp"] else []) ++ (if cb then [".bp"] else [])
        ++ l :: paginate hints ab (n + 1) (k2 + 1) rest)
    set hb : Bool :=
      match hints n with
      | some (needed, text_type) =>
        break_hint_decision ab needed text_type (55 - (k : Int)) (py_strip l == "")
      | none => false with hhb
    cases hb with
    | true =>
      -- hint-driven break: counter resets to 0, capacity test cannot fire
      have h1 : runBounded 55 1 (paginate hints ab (n + 1) 1 rest) := ih (n + 1) 1 (by omega)
      by_cases hl : l = ".bp"
      · simpa [runBounded, hl] using runBounded_mono _ (by omega) h1
      · simpa [runBounded, hl] using h1
    | false =>
      by_cases hcap : k + 1 > 55
      · -- hard-capacity break
        have h1 : runBounded 55 1 (paginate hints ab (n + 1) 1 rest) := ih (n + 1) 1 (by omega)
        by_cases hl : l = ".bp"
        · simpa [runBounded, hcap, hl] using runBounded_mono _ (by omega) h1
        · simpa [runBounded, hcap, hl] using h1
      · -- no break: counter advances, still within capacity
        have hk1 : k + 1 ≤ 55 := by omega
        have h1 : runBounded 55 (k + 1) (paginate hints ab (n + 1) (k + 1) rest) :=
          ih (n + 1) (k + 1) hk1
        by_cases hl : l = ".bp"
        · simpa [runBounded, hcap, hl] using runBounded_mono _ (by omega) h1
        · simp [runBounded, hcap, hl]
          exact ⟨by omega, h1⟩

/-- C1: for every buffer and break-hint ledger, the output of the
pagination pass keeps every page segment between consecutive `.bp`
break commands (and between the document start/end and the nearest
break) at most `pageCapacity = 55` content lines; a break command resets
the page counter and is not itself counted. -/
theorem post_rendering_page_segments_le_55
    (hints : Nat → Option (Int × String)) (ab : Bool) (buf : List String) :
    runBounded 55 0 (post_rendering hints ab buf) :=
  paginate_runBounded hints ab buf 0 0 (by omega)

theorem paginate_bpInserted (hints : Nat → Option (Int × String)) (ab : Bool) :
    ∀ (buf : List String) (n k : Nat), BpInserted (paginate hints ab n k buf) buf := by
  intro buf
  induction buf with
  | nil => intro n k; exact BpInserted.nil
  | cons l rest ih =>
    intro n k
    show BpInserted
      (let hb : Bool :=
        match hints n with
        | some (needed, text_type) =>
          break_hint_decision ab needed text_type (55 - (k : Int)) (py_strip l == "")
        | none => false
      let k1 := if hb then 0 else k
      let cb : Bool := decide (k1 + 1 > 55)
      let k2 := if cb then 0 else k1
      (if hb then [".bp"] else []) ++ (if cb then [".bp"] else [])
        ++ l :: paginate hints ab (n + 1) (k2 + 1) rest) (l :: rest)
    set hb : Bool :=
      match hints n with
      | some (needed, text_type) =>
        break_hint_decision ab needed text_type (55 - (k : Int)) (py_strip l == "")
      | none => false with hhb
    cases hb with
    | true =>
      simpa using BpInserted.brk (BpInserted.keep l (ih (n + 1) 1))
    | false =>
      by_cases hcap : k + 1 > 55
      · simpa [hcap] using BpInserted.brk (BpInserted.keep l (ih (n + 1) 1))
      · simpa [hcap] using BpInserted.keep l (ih (n + 1) (k + 1))

/-- C2: the pagination pass is a total function (it is a structurally
recursive `def`, defined for every buffer and every ledger, including
ledgers with wrong `linesNeeded` values), and its output is exactly the
buffer with only `.bp` break commands inserted: every buffer line is
emitted exactly once, in order. -/
theorem post_rendering_buffer_preserved
    (hints : Nat → Option (Int × String)) (ab : Bool) (buf : List String) :
    BpInserted (post_rendering hints ab buf) buf :=
  paginate_bpInserted hints ab buf 0 0

theorem txt_decision_eq_spec (ab : Bool) (needed available : Int) (blank : Bool) :
    break_hint_decision ab needed "txt" available blank =
      heuristic_break_spec ab needed available blank := by
  cases blank <;> simp [break_hint_decision, heuristic_break_spec]

/-- C3: at a buffer index carrying a FLOW (`"txt"`) break hint, with
automatic breaks enabled and the page cursor at most 54 (so that the
hard-capacity break cannot also fire at this index), the pagination
pass inserts a `.bp` before that index exactly when the spec's heuristic
condition holds: `linesNeeded > available` and
`(linesNeeded − available < 2 or available < 2)`, both values first
decremented by 1 when the line is blank (`available = 55 − page_len`).
In particular the decision with `available = 5, linesNeeded = 10` is
"no break" and with `available = 1, linesNeeded = 10` it is "break". -/
theorem txt_heuristic_break_iff :
    (∀ (hints : Nat → Option (Int × String)) (needed : Int) (line : String)
        (rest : List String) (n k : Nat),
      hints n = some (needed, "txt") → k ≤ 54 →
      paginate hints true n k (line :: rest) =
        (if heuristic_break_spec true needed (55 - (k : Int)) (py_strip line == "")
          then [".bp"] else [])
          ++ line :: paginate hints true (n + 1)
              ((if heuristic_break_spec true needed (55 - (k : Int)) (py_strip line == "")
                then 0 else k) + 1) rest)
    ∧ break_hint_decision true 10 "txt" 5 false = false
    ∧ break_hint_decision true 10 "txt" 1 false = true := by
  refine ⟨?_, by decide, by decide⟩
  intro hints needed line rest n k hn hk
  show
    (let hb : Bool :=
      match hints n with
      | some (needed, text_type) =>
        break_hint_decision true needed text_type (55 - (k : Int)) (py_strip line == "")
      | none => false
    let k1 := if hb then 0 else k
    let cb : Bool := decide (k1 + 1 > 55)
    let k2 := if cb then 0 else k1
    (if hb then [".bp"] else []) ++ (if cb then [".bp"] else [])
      ++ line :: paginate hints true (n + 1) (k2 + 1) rest) = _
  rw [hn]
  cases hd : heuristic_break_spec true needed (55 - (k : Int)) (py_strip line == "") with
  | true =>
    simp [txt_decision_eq_spec, hd]
  | false =>
    have hcap : ¬ k + 1 > 55 := by omega
    simp [txt_decision_eq_spec, hd, hcap]

theorem raw_decision_eq (ab : Bool) (needed available : Int) (blank : Bool) :
    break_hint_decision ab needed "raw" available blank = decide (needed > available) := by
  cases blank with
  | false =>
    by_cases h : needed > available <;> simp [break_hint_decision, h]
  | true =>
    by_cases h : needed - 1 > available - 1
    · have h2 : needed > available := by omega
      simp [break_hint_decision, h, h2]
    · have h2 : ¬ needed > available := by omega
      simp [break_hint_decision, h, h2]

theorem paginate_no_hint_run (hints : Nat → Option (Int × String)) (ab : Bool) :
    ∀ (block : List String) (rest : List String) (n k : Nat),
      (∀ j, n ≤ j → j < n + block.length → hints j = none) →
      k + block.length ≤ 55 →
      paginate hints ab n k (block ++ rest) =
        block ++ paginate hints ab (n + block.length) (k + block.length) rest := by
  intro block
  induction block with
  | nil => intro rest n k _ _; simp
  | cons l bs ih =>
    intro rest n k hnone hcap
    have hn : hints n = none :=
      hnone n (Nat.le_refl n) (by simp only [List.length_cons]; omega)
    have hcap1 : ¬ k + 1 > 55 := by
      simp only [List.length_cons] at hcap; omega
    have ihr := ih rest (n + 1) (k + 1)
      (fun j h1 h2 => hnone j (by omega)
        (by simp only [List.length_cons] at h2 ⊢; omega))
      (by simp only [List.length_cons] at hcap ⊢; omega)
    have e1 : n + 1 + bs.length = n + (l :: bs).length := by
      simp only [List.length_cons]; omega
    have e2 : k + 1 + bs.length = k + (l :: bs).length := by
      simp only [List.length_cons]; omega
    rw [e1, e2] at ihr
    calc paginate hints ab n k ((l :: bs) ++ rest)
        = l :: paginate hints ab (n + 1) (k + 1) (bs ++ rest) := by
          show
            (let hb : Bool :=
              match hints n with
              | some (needed, text_type) =>
                break_hint_decision ab needed text_type (55 - (k : Int)) (py_strip l == "")
              | none => false
            let k1 := if hb then 0 else k
            let cb : Bool := decide (k1 + 1 > 55)
            let k2 := if cb then 0 else k1
            (if hb then [".bp"] else []) ++ (if cb then [".bp"] else [])
              ++ l :: paginate hints ab (n + 1) (k2 + 1) (bs ++ rest)) = _
          rw [hn]
          simp [hcap1]
      _ = (l :: bs) ++ paginate hints ab (n + (l :: bs).length)
            (k + (l :: bs).length) rest := by
          rw [ihr]; simp

/-- C4: a RAW block (break hint `(needed, "raw")` at its first line, no
hints inside, `1 ≤ needed = block length ≤ 55`) is never split by the
pagination pass: a `.bp` is inserted immediately before the block
exactly when `linesNeeded > available = 55 − page_len`, and the block
then appears contiguously, with no break command between its first and
last line. -/
theorem raw_block_never_split
    (hints : Nat → Option (Int × String)) (ab : Bool)
    (block rest : List String) (n k needed : Nat)
    (hhint : hints n = some ((needed : Int), "raw"))
    (hlen : block.length = needed)
    (hpos : 1 ≤ needed) (hfit : needed ≤ 55)
    (hinside : ∀ j, n < j → j < n + needed → hints j = none) :
    paginate hints ab n k (block ++ rest) =
      (if (needed : Int) > 55 - (k : Int) then [".bp"] else []) ++ block
        ++ paginate hints ab (n + needed)
            ((if (needed : Int) > 55 - (k : Int) then 0 else k) + needed) rest := by
  cases block with
  | nil => simp at hlen; omega
  | cons l bs =>
    have hbs : bs.length = needed - 1 := by
      simp only [List.length_cons] at hlen; omega
    have e1 : n + 1 + bs.length = n + needed := by omega
    by_cases hbrk : (needed : Int) > 55 - (k : Int)
    · -- break before the block; it then starts on a fresh page and fits
      have h1 : paginate hints ab (n + 1) 1 (bs ++ rest) =
          bs ++ paginate hints ab (n + 1 + bs.length) (1 + bs.length) rest :=
        paginate_no_hint_run hints ab bs rest (n + 1) 1
          (fun j hj1 hj2 => hinside j (by omega) (by omega))
          (by omega)
      have e2 : 1 + bs.length = 0 + needed := by omega
      rw [e1, e2] at h1
      calc paginate hints ab n k ((l :: bs) ++ rest)
          = ".bp" :: l :: paginate hints ab (n + 1) 1 (bs ++ rest) := by
            show
              (let hb : Bool :=
                match hints n with
                | some (needed, text_type) =>
                  break_hint_decision ab needed text_type (55 - (k : Int)) (py_strip l == "")
                | none => false
              let k1 := if hb then 0 else k
              let cb : Bool := decide (k1 + 1 > 55)
              let k2 := if cb then 0 else k1
              (if hb then [".bp"] else []) ++ (if cb then [".bp"] else [])
                ++ l :: paginate hints ab (n + 1) (k2 + 1) (bs ++ rest)) = _
            rw [hhint]
            simp [raw_decision_eq, hbrk]
        _ = (if (needed : Int) > 55 - (k : Int) then [".bp"] else []) ++ (l :: bs)
              ++ paginate hints ab (n + needed)
                  ((if (needed : Int) > 55 - (k : Int) then 0 else k) + needed) rest := by
            rw [h1]; simp [hbrk]
    · -- the block fits on the current page: no break anywhere in it
      have hcap1 : ¬ k + 1 > 55 := by omega
      have h1 : paginate hints ab (n + 1) (k + 1) (bs ++ rest) =
          bs ++ paginate hints ab (n + 1 + bs.length) (k + 1 + bs.length) rest :=
        paginate_no_hint_run hints ab bs rest (n + 1) (k + 1)
          (fun j hj1 hj2 => hinside j (by omega) (by omega))
          (by omega)
      have e2 : k + 1 + bs.length = k + needed := by omega
      rw [e1, e2] at h1
      calc paginate hints ab n k ((l :: bs) ++ rest)
          = l :: paginate hints ab (n + 1) (k + 1) (bs ++ rest) := by
            show
              (let hb : Bool :=
                match hints n with
                | some (needed, text_type) =>
                  break_hint_decision ab needed text_type (55 - (k : Int)) (py_strip l == "")
                | none => false
              let k1 := if hb then 0 else k
              let cb : Bool := decide (k1 + 1 > 55)
              let k2 := if cb then 0 else k1
              (if hb then [".bp"] else []) ++ (if cb then [".bp"] else [])
                ++ l :: paginate hints ab (n + 1) (k2 + 1) (bs ++ rest)) = _
            rw [hhint]
            simp [raw_decision_eq, hbrk, hcap1]
        _ = (if (needed : Int) > 55 - (k : Int) then [".bp"] else []) ++ (l :: bs)
              ++ paginate hints ab (n + needed)
                  ((if (needed : Int) > 55 - (k : Int) then 0 else k) + needed) rest := by
            rw [h1]; simp [hbrk]

/-- Witness for C3: instantiating the FLOW-break characterization at a
concrete ledger, buffer and page cursor (`page_len = 50`). -/
theorem txt_heuristic_break_iff_witness :
    paginate c3_hints true 0 50 ["x"] =
      (if heuristic_break_spec true 10 (55 - ((50 : Nat) : Int)) (py_strip "x" == "")
        then [".bp"] else [])
        ++ "x" :: paginate c3_hints true (0 + 1)
            ((if heuristic_break_spec true 10 (55 - ((50 : Nat) : Int)) (py_strip "x" == "")
              then 0 else 50) + 1) [] :=
  txt_heuristic_break_iff.1 c3_hints 10 "x" [] 0 50 rfl (by omega)

/-- Witness for C4: a two-line RAW block hinted at offset 0 with the page
cursor at 54 (`available = 1 < 2 = needed`), so a break is forced before
the block and the block stays contiguous. -/
theorem raw_block_never_split_witness :
    paginate c4_hints false 0 54 (["a", "b"] ++ ["c"]) =
      (if ((2 : Nat) : Int) > 55 - ((54 : Nat) : Int) then [".bp"] else [])
        ++ ["a", "b"]
        ++ paginate c4_hints false (0 + 2)
            ((if ((2 : Nat) : Int) > 55 - ((54 : Nat) : Int) then 0 else 54) + 2) ["c"] :=
  raw_block_never_split c4_hints false ["a", "b"] ["c"] 0 54 2 rfl rfl
    (by omega) (by omega)
    (fun j h1 h2 => by
      have hj : j = 1 := by omega
      subst hj; rfl)

theorem write_text_core_break_hints (string : String) (indent sub_indent : Nat)
    (bullet align : String) (lbl edit editing : Bool) (par : List String)
    (st : RenderState) (k : Nat) :
    (write_text_core string indent sub_indent bullet align lbl edit editing par st).break_hints k
      = if k = st.buf.length then
          some ((((write_text_core string indent sub_indent bullet align lbl edit editing
            par st).buf.length - st.buf.length : Nat) : Int), "txt")
        else st.break_hints k := rfl

theorem write_text_core_curr (string : String) (indent sub_indent : Nat)
    (bullet align : String) (lbl edit editing : Bool) (par : List String)
    (st : RenderState) :
    (write_text_core string indent sub_indent bullet align lbl edit editing par st).curr_indent
      = if string ≠ "" ∧ align ≠ "center" then
          (if sub_indent ≠ 0 then indent + sub_indent else indent + bullet.length)
        else st.curr_indent := rfl

theorem write_text_core_buf_len (string : String) (indent sub_indent : Nat)
    (bullet align : String) (lbl edit editing : Bool) (par : List String)
    (st : RenderState) :
    st.buf.length ≤ (write_text_core string indent sub_indent bullet align lbl
      edit editing par st).buf.length := by
  simp only [write_text_core]
  split_ifs <;> simp [lb_lines]

theorem write_text_some_core (wrap : String → Bool → Bool → List String)
    (editing : Bool) (string : String) (indent sub_indent : Nat)
    (bullet align : String) (lbl strip edit fse : Bool) (st st' : RenderState)
    (hw : write_text wrap editing string indent sub_indent bullet align lbl
      strip edit fse st = some st') :
    ∃ par, st' = write_text_core string indent sub_indent bullet align lbl
      edit editing par st := by
  unfold write_text at hw
  by_cases hs : string ≠ ""
  · rw [if_pos hs] at hw
    split at hw
    · exact absurd hw (by simp)
    · exact ⟨_, (Option.some.inj hw).symm⟩
  · rw [if_neg hs] at hw
    exact ⟨[], (Option.some.inj hw).symm⟩

/-- Counterexample for C7 as stated: `write_text` called with empty
text, no bullet and no leading blank line appends nothing, yet still
records `break_hints[begin] = (0, "txt")` with `begin = len(buf)`; the
recorded offset `0` is not strictly below the (unchanged) buffer length
`0`, so ledger keys are not strictly within `[0, len(Buffer))`. -/
theorem break_hint_offset_counterexample :
    (write_text no_lines_wrap false "" 0 0 "" "left" false true false true
        empty_state).map (fun s => (s.buf.length, s.break_hints 0))
      = some (0, some (0, "txt")) := rfl

/-- C7 amended: after every `write_text` call, every ledger key is at
most `len(Buffer)` (strictness can fail only for the just-recorded
offset, exactly when the call appended no lines); the call records
`break_hints[begin] = (end − begin, "txt")` at `begin` = the old buffer
length, overwriting (not merging with) any earlier value there; and the
buffer only grows. -/
theorem break_hints_bounded_and_overwrite
    (wrap : String → Bool → Bool → List String) (editing : Bool)
    (string : String) (indent sub_indent : Nat) (bullet align : String)
    (lbl strip edit fse : Bool) (st st' : RenderState)
    (hw : write_text wrap editing string indent sub_indent bullet align lbl
      strip edit fse st = some st')
    (hold : ∀ k p, st.break_hints k = some p → k ≤ st.buf.length) :
    st.buf.length ≤ st'.buf.length
    ∧ st'.break_hints st.buf.length
        = some (((st'.buf.length - st.buf.length : Nat) : Int), "txt")
    ∧ ∀ k p, st'.break_hints k = some p → k ≤ st'.buf.length := by
  obtain ⟨par, rfl⟩ := write_text_some_core wrap editing string indent sub_indent
    bullet align lbl strip edit fse st st' hw
  have hlen : st.buf.length ≤ (write_text_core string indent sub_indent bullet
      align lbl edit editing par st).buf.length :=
    write_text_core_buf_len string indent sub_indent bullet align lbl edit editing par st
  refine ⟨hlen, ?_, ?_⟩
  · rw [write_text_core_break_hints]
    simp
  · intro k p hk
    rw [write_text_core_break_hints] at hk
    by_cases hkb : k = st.buf.length
    · subst hkb; exact hlen
    · rw [if_neg hkb] at hk
      exact le_trans (hold k p hk) hlen

/-- Witness for the amended C7 theorem: a concrete one-line `write_text`
call from the fresh state. -/
theorem break_hints_bounded_and_overwrite_witness :
    empty_state.buf.length ≤ c7_state.buf.length
    ∧ c7_state.break_hints empty_state.buf.length
        = some (((c7_state.buf.length - empty_state.buf.length : Nat) : Int), "txt") := by
  have h := break_hints_bounded_and_overwrite single_line_wrap false "hi" 3 0 ""
    "left" false true false true empty_state c7_state rfl
    (fun k p hp => nomatch hp)
  exact ⟨h.1, h.2.1⟩

/-- C8: for every `write_text` call with non-empty text and left
alignment, the persistent indent handed to the indentation tracker (and
hence the resulting `curr_indent`) is the continuation (hanging) indent
`indent + sub_indent` when `sub_indent` is provided (non-zero), and
`indent + len(bullet)` otherwise; and the concrete scenario: bullet
`"1. "` at base indent 0 with body text fitting one line yields the
buffer `[".in 3", ".ti 0", "1. body"]` — a temporary zero-indent `.ti 0`
command preceding the bullet line, with continuation indent 3. -/
theorem effective_indent_correct :
    (∀ (wrap : String → Bool → Bool → List String) (editing : Bool)
        (string : String) (indent sub_indent : Nat) (bullet : String)
        (lbl strip edit fse : Bool) (st st' : RenderState),
      string ≠ "" →
      write_text wrap editing string indent sub_indent bullet "left" lbl strip
        edit fse st = some st' →
      st'.curr_indent
        = (if sub_indent ≠ 0 then indent + sub_indent else indent + bullet.length))
    ∧ (write_text single_line_wrap false "body" 0 0 "1. " "left" false true false
        true empty_state).map (fun s => (s.buf, s.curr_indent))
      = some ([".in 3", ".ti 0", "1. body"], 3) := by
  constructor
  · intro wrap editing string indent sub_indent bullet lbl strip edit fse st st' hs hw
    obtain ⟨par, rfl⟩ := write_text_some_core wrap editing string indent sub_indent
      bullet "left" lbl strip edit fse st st' hw
    rw [write_text_core_curr]
    rw [if_pos ⟨hs, by decide⟩]
  · rfl

/-- Witness for C8: the scenario call, whose resulting `curr_indent` is
`0 + len("1. ") = 3` (the `sub_indent = 0` branch). -/
theorem effective_indent_correct_witness :
    c8_state.curr_indent = (if (0 : Nat) ≠ 0 then 0 + 0 else 0 + "1. ".length) :=
  effective_indent_correct.1 single_line_wrap false "body" 0 0 "1. " false true
    false true empty_state c8_state (by decide) rfl

/-- Counterexample for C5 as stated: not every indent-command emission
goes through the state tracker.  With `curr_indent = 3` the tracker
`_indent 3` emits nothing (it compares and suppresses), yet
`_post_write_toc` — a pure function of the TOC lines and the target
buffer, which neither reads nor updates `curr_indent` — unconditionally
emits the indent command `.in 3`: an indent command emitted with no
level transition and without the tracker's comparison. -/
theorem indent_bypass_counterexample :
    (_indent 3 { buf := [], curr_indent := 3,
                 break_hints := fun _ => none, edit_counter := 0 }).buf
      = ([] : List String)
    ∧ ".in 3" ∈ _post_write_toc [] [] :=
  ⟨rfl, by decide⟩

/-- C5 amended: indent commands emitted through the state tracker are
suppressed when the requested level equals `curr_indent`: a run of
`_indent` calls appends exactly one `.in` command per distinct level
transition, and no two consecutive emitted commands carry the same
level (the chain of emitted levels, starting from the incoming
`curr_indent`, has pairwise-distinct neighbours). -/
theorem indent_tracker_no_adjacent_duplicates :
    ∀ (amts : List Nat) (st : RenderState),
      (indent_run amts st).buf
        = st.buf ++ (emitted_levels amts st.curr_indent).map
            (fun a => ".in " ++ toString a)
      ∧ List.Chain (fun a b => a ≠ b) st.curr_indent
          (emitted_levels amts st.curr_indent) := by
  intro amts
  induction amts with
  | nil => intro st; simp [indent_run, emitted_levels, List.Chain.nil]
  | cons a rest ih =>
    intro st
    by_cases h : a = st.curr_indent
    · have hstep : _indent a st = st := by simp [_indent, h]
      have hr := ih st
      constructor
      · show (indent_run rest (_indent a st)).buf = _
        rw [hstep]
        simpa [emitted_levels, h] using hr.1
      · simpa [emitted_levels, h] using hr.2
    · have hstep : _indent a st =
          { st with buf := st.buf ++ [".in " ++ toString a], curr_indent := a } := by
        simp [_indent, h]
      have hih := ih (_indent a st)
      rw [hstep] at hih
      have hemit : emitted_levels (a :: rest) st.curr_indent
          = a :: emitted_levels rest a := by
        simp [emitted_levels, h]
      constructor
      · show (indent_run rest (_indent a st)).buf = _
        rw [hstep, hemit]
        have h1 := hih.1
        simp only [] at h1
        rw [h1]
        simp
      · rw [hemit]
        exact List.Chain.cons (Ne.symm h) (by simpa using hih.2)

theorem string_data_nil (s : String) (h : s.data = []) : s = "" := by
  cases s with
  | mk d => cases h; rfl

theorem escape_line_eq (s t : String) (h : escape_line s = some t) :
    t = if s.data.head? = some apos then "\\" ++ s
        else if s.data.head? = some '.' then "\\&" ++ s
        else s := by
  unfold escape_line nroff_escape_linestart at h
  rcases hs : s.data with _ | ⟨c, cs⟩
  · rw [hs] at h
    exact absurd h (by simp)
  · rw [hs] at h
    simp only [List.head?_cons, Option.some.injEq]
    by_cases hc1 : c = apos
    · subst hc1
      rw [if_pos rfl]
      have hmem : apos ∈ nroff_linestart_meta := by decide
      simp [hmem] at h
      exact h.symm
    · by_cases hc2 : c = '.'
      · subst hc2
        rw [if_neg hc1, if_pos rfl]
        have hmem : ('.' : Char) ∈ nroff_linestart_meta := by decide
        simp [hmem, hc1] at h
        exact h.symm
      · rw [if_neg hc1, if_neg hc2]
        have hmem : c ∉ nroff_linestart_meta := by
          simp [nroff_linestart_meta, hc1, hc2]
        simp [hmem] at h
        exact h.symm

theorem escape_line_head (s t : String) (h : escape_line s = some t) :
    t.data.head? ≠ some '.' ∧ t.data.head? ≠ some apos := by
  have he := escape_line_eq s t h
  by_cases h1 : s.data.head? = some apos
  · rw [if_pos h1] at he
    have hd : t.data.head? = some '\\' := by
      rw [he, String.data_append]; rfl
    rw [hd]
    exact ⟨by decide, by decide⟩
  · rw [if_neg h1] at he
    by_cases h2 : s.data.head? = some '.'
    · rw [if_pos h2] at he
      have hd : t.data.head? = some '\\' := by
        rw [he, String.data_append]; rfl
      rw [hd]
      exact ⟨by decide, by decide⟩
    · rw [if_neg h2] at he
      rw [he]
      exact ⟨h2, h1⟩

theorem write_line_via_escape (buf : List String) (s : String) :
    write_line buf s = (escape_line s).map (fun l => buf ++ [l]) := by
  unfold write_line escape_line
  rcases hs : s.data with _ | ⟨c, cs⟩
  · rfl
  · show (if c ∈ nroff_linestart_meta then
        some (buf ++ [(nroff_escape_linestart s).getD s])
      else some (buf ++ [s]))
      = Option.map (fun l => buf ++ [l])
          (if c ∈ nroff_linestart_meta then nroff_escape_linestart s else some s)
    by_cases hc : c ∈ nroff_linestart_meta
    · have hmem : c = apos ∨ c = '.' := by
        simpa [nroff_linestart_meta] using hc
      have hesc : ∃ e, nroff_escape_linestart s = some e := by
        unfold nroff_escape_linestart
        rw [hs]
        show ∃ e, (if c = apos then some ("\\" ++ s)
            else if c = '.' then some ("\\&" ++ s) else none) = some e
        by_cases hca : c = apos
        · rw [if_pos hca]; exact ⟨_, rfl⟩
        · rcases hmem with hm | hm
          · exact absurd hm hca
          · rw [if_neg hca, if_pos hm]; exact ⟨_, rfl⟩
      obtain ⟨e, he⟩ := hesc
      rw [if_pos hc, if_pos hc, he]
      rfl
    · rw [if_neg hc, if_neg hc]
      rfl

/-- Counterexample for C6 as stated: TOC entry lines are not escaped on
entering the buffer.  A TOC line starting with the control sentinel `.`
is copied verbatim by `_post_write_toc` (its escaped form would differ),
so a sentinel-leading content line reaches the buffer unescaped. -/
theorem toc_line_unescaped_counterexample :
    ".x" ∈ _post_write_toc [".x"] []
    ∧ (".x" : String).data.head? = some '.'
    ∧ nroff_escape_linestart ".x" = some ("\\&" ++ ".x")
    ∧ (".x" : String) ≠ "\\&" ++ ".x" :=
  ⟨by decide, rfl, rfl, by decide⟩

/-- C6 amended: the lines appended by `write_line` and the
wrapped-paragraph lines passing through `write_text`'s escape loop are
escaped exactly when their first character is a control sentinel
(`'` gets a `\` prefix, `.` gets `\&`), so no line emitted through those
two paths enters the buffer starting with a sentinel; TOC entry lines,
by contrast, bypass this escaping (see the counterexample). -/
theorem escaping_at_emission :
    (∀ (buf : List String) (s : String) (out : List String),
      write_line buf s = some out →
      ∃ l, out = buf ++ [l]
        ∧ l = (if s.data.head? = some apos then "\\" ++ s
               else if s.data.head? = some '.' then "\\&" ++ s else s)
        ∧ l.data.head? ≠ some '.' ∧ l.data.head? ≠ some apos)
    ∧ (∀ (par out : List String), escape_par par = some out →
        ∀ l ∈ out, l.data.head? ≠ some '.' ∧ l.data.head? ≠ some apos) := by
  constructor
  · intro buf s out hw
    rw [write_line_via_escape] at hw
    cases he : escape_line s with
    | none => rw [he] at hw; cases hw
    | some l =>
      rw [he] at hw
      refine ⟨l, ?_, escape_line_eq s l he, escape_line_head s l he⟩
      simpa using hw.symm
  · intro par
    induction par with
    | nil =>
      intro out h l hl
      simp [escape_par] at h
      subst h
      cases hl
    | cons p ps ih =>
      intro out h l hl
      unfold escape_par at h
      cases hep : escape_line p with
      | none => rw [hep] at h; cases h
      | some l2 =>
        cases heps : escape_par ps with
        | none => rw [hep, heps] at h; cases h
        | some r2 =>
          rw [hep, heps] at h
          have hout : out = l2 :: r2 := (Option.some.inj h).symm
          subst hout
          rcases List.mem_cons.mp hl with h1 | h1
          · subst h1; exact escape_line_head p l hep
          · exact ih r2 heps l h1

/-- Witness for the amended C6 theorem: the concrete `write_line` call
on the sentinel-leading line `.x` appends only its `\&`-escaped form. -/
theorem escaping_at_emission_witness :
    ∃ l, ["\\&" ++ ".x"] = ([] : List String) ++ [l]
      ∧ l = (if (".x" : String).data.head? = some apos then "\\" ++ ".x"
             else if (".x" : String).data.head? = some '.' then "\\&" ++ ".x"
             else ".x")
      ∧ l.data.head? ≠ some '.' ∧ l.data.head? ≠ some apos :=
  escaping_at_emission.1 [] ".x" ["\\&" ++ ".x"] rfl

theorem escape_line_of_head_dot (s : String) (h : s.data.head? = some '.') :
    escape_line s = some ("\\&" ++ s) := by
  rcases hs : s.data with _ | ⟨c, cs⟩
  · rw [hs] at h; cases h
  · rw [hs] at h
    have hc : c = '.' := by simpa using h
    subst hc
    unfold escape_line nroff_escape_linestart
    rw [hs]
    have h1 : ('.' : Char) ∈ nroff_linestart_meta := by decide
    have h2 : ('.' : Char) ≠ apos := by decide
    simp [h1, h2]

theorem escape_line_of_head_apos (s : String) (h : s.data.head? = some apos) :
    escape_line s = some ("\\" ++ s) := by
  rcases hs : s.data with _ | ⟨c, cs⟩
  · rw [hs] at h; cases h
  · rw [hs] at h
    have hc : c = apos := by simpa using h
    subst hc
    unfold escape_line nroff_escape_linestart
    rw [hs]
    have h1 : apos ∈ nroff_linestart_meta := by decide
    simp [h1]

theorem escape_line_of_head_other (s : String) (h0 : s ≠ "")
    (h1 : s.data.head? ≠ some '.') (h2 : s.data.head? ≠ some apos) :
    escape_line s = some s := by
  rcases hs : s.data with _ | ⟨c, cs⟩
  · exact absurd (string_data_nil s hs) h0
  · have hd : s.data.head? = some c := by rw [hs]; rfl
    have hc1 : c ≠ '.' := by
      intro hh; rw [hh] at hd; exact h1 hd
    have hc2 : c ≠ apos := by
      intro hh; rw [hh] at hd; exact h2 hd
    have hmem : c ∉ nroff_linestart_meta := by
      simp [nroff_linestart_meta, hc1, hc2]
    unfold escape_line
    rw [hs]
    simp [hmem]

/-- C10: `write_line` is partial exactly at the empty string: it indexes
`string[0]` unconditionally, so the empty string fails (`none`) instead
of appending a blank line; every non-empty string appends exactly one
line — prefixed with `\&` when it starts with `.`, with `\` when it
starts with `'`, and unchanged otherwise. -/
theorem write_line_behavior (buf : List String) (s : String) :
    (s = "" → write_line buf s = none)
    ∧ (s.data.head? = some '.' → write_line buf s = some (buf ++ ["\\&" ++ s]))
    ∧ (s.data.head? = some apos → write_line buf s = some (buf ++ ["\\" ++ s]))
    ∧ (s ≠ "" → s.data.head? ≠ some '.' → s.data.head? ≠ some apos →
        write_line buf s = some (buf ++ [s])) := by
  refine ⟨?_, ?_, ?_, ?_⟩
  · intro h; subst h; rfl
  · intro h
    rw [write_line_via_escape, escape_line_of_head_dot s h]
    rfl
  · intro h
    rw [write_line_via_escape, escape_line_of_head_apos s h]
    rfl
  · intro h0 h1 h2
    rw [write_line_via_escape, escape_line_of_head_other s h0 h1 h2]
    rfl

/-- Witness for C10: the dot-leading line `.x` is appended in escaped
form, and the empty string fails. -/
theorem write_line_behavior_witness :
    write_line [] ".x" = some ([] ++ ["\\&" ++ ".x"]) ∧ write_line [] "" = none :=
  ⟨(write_line_behavior [] ".x").2.1 rfl, (write_line_behavior [] "").1 rfl⟩

/-- C9: the cross-reference expansion cases of `_expand_xref`.  The
display text is the bracketed target when the anchor resolves to no
item or the format is `none`; the item's counter for `counter`, its
title for `title`, and its auto-generated name for any other (including
unknown) format.  When the element carries its own text, an unbracketed
display text is wrapped in parentheses, and a bracketed display text
containing `.` or `-` gets the `\%` escape, appended after the
right-stripped element text. -/
theorem expand_xref_cases :
    (∀ (g : String → Option XrefItem) (d : String) (x : XrefElem),
      g (x.target.getD "") = none →
      xref_target_text g d x = "[" ++ x.target.getD "" ++ "]")
    ∧ (∀ (g : String → Option XrefItem) (d : String) (x : XrefElem),
        x.format.getD d = "none" →
        xref_target_text g d x = "[" ++ x.target.getD "" ++ "]")
    ∧ (∀ (g : String → Option XrefItem) (d : String) (x : XrefElem)
          (item : XrefItem),
        g (x.target.getD "") = some item → x.format.getD d = "counter" →
        xref_target_text g d x = item.counter)
    ∧ (∀ (g : String → Option XrefItem) (d : String) (x : XrefElem)
          (item : XrefItem),
        g (x.target.getD "") = some item → x.format.getD d = "title" →
        xref_target_text g d x = item.title)
    ∧ (∀ (g : String → Option XrefItem) (d : String) (x : XrefElem)
          (item : XrefItem),
        g (x.target.getD "") = some item → x.format.getD d ≠ "none" →
        x.format.getD d ≠ "counter" → x.format.getD d ≠ "title" →
        xref_target_text g d x = item.autoName)
    ∧ (∀ (g : String → Option XrefItem) (d : String) (x : XrefElem),
        x.text ≠ "" →
        starts_with_char '[' (xref_target_text g d x) = false →
        _expand_xref g d x
          = py_rstrip x.text ++ " " ++ ("(" ++ xref_target_text g d x ++ ")"))
    ∧ (∀ (g : String → Option XrefItem) (d : String) (x : XrefElem),
        x.text ≠ "" →
        starts_with_char '[' (xref_target_text g d x) = true →
        ('.' ∈ (xref_target_text g d x).data ∨ '-' ∈ (xref_target_text g d x).data) →
        _expand_xref g d x
          = py_rstrip x.text ++ " " ++ ("\\%" ++ xref_target_text g d x)) := by
  refine ⟨?_, ?_, ?_, ?_, ?_, ?_, ?_⟩
  · intro g d x h
    simp [xref_target_text, h]
  · intro g d x h
    cases hgi : g (x.target.getD "") with
    | none => simp [xref_target_text, hgi]
    | some item => simp [xref_target_text, hgi, h]
  · intro g d x item hgi hfmt
    simp [xref_target_text, hgi, hfmt]
  · intro g d x item hgi hfmt
    simp [xref_target_text, hgi, hfmt]
  · intro g d x item hgi h1 h2 h3
    simp [xref_target_text, hgi, h1, h2, h3]
  · intro g d x ht hstart
    unfold _expand_xref
    rw [if_pos ht, hstart]
    simp
  · intro g d x ht hstart hmem
    unfold _expand_xref
    rw [if_pos ht, hstart]
    simp only [Bool.not_true, Bool.false_eq_true, if_false]
    rw [if_pos hmem]

/-- Witness for C9: a resolved anchor with format `counter` yields the
counter, and an unresolved dotted target carried by an element with its
own text yields the `\%`-escaped bracketed form. -/
theorem expand_xref_cases_witness :
    xref_target_text c9_items "default"
        { target := some "sec", format := some "counter", text := "" } = "5"
    ∧ _expand_xref c9_items "default"
        { target := some "RFC.1", format := none, text := "see" }
      = py_rstrip "see" ++ " " ++ ("\\%" ++ xref_target_text c9_items "default"
          { target := some "RFC.1", format := none, text := "see" }) := by
  constructor
  · exact expand_xref_cases.2.2.1 c9_items "default"
      { target := some "sec", format := some "counter", text := "" }
      { counter := "5", title := "Intro", autoName := "Section 5" } rfl rfl
  · exact expand_xref_cases.2.2.2.2.2.2 c9_items "default"
      { target := some "RFC.1", format := none, text := "see" }
      (by decide) rfl (by decide)

end Nroff
